import Mathlib

/-!
Shallow embedding of the request admission-control gateway of
`src/app/handlers/gate.py`: rule normalization and cached loading
(`load_schemas` / `normalize_rule`), path-rule matching
(`compile_path_pattern` / `find_matching_rule`), the four field validators
(`validate_method`, `validate_headers_exact`, `validate_rqid`,
`validate_body_structure` with `validate_field`), and the per-request
interception flow (`validate_request` inside `gate_middleware`, here
`intercept`) together with the gateway health state
(`_gate_healthy` / `_gate_init_error` / `_schemas_cache`, here `GState`).

Python strings are `String`, Python dicts are association lists with
first-key-wins lookup, raised exceptions are `Except.error`, and the
results of `re.compile` on pattern strings are modelled by an explicit
regular-expression syntax `Regex` (with `Option Regex` standing for a
compile that may raise `re.error`).  Python's `re.match` ("match at
position 0, an unanchored prefix test") is `rmatch` below.
-/

namespace Gate

/-- Abstract syntax for the compiled regular expressions appearing in rule
path patterns and body field patterns.  A `Regex` value models the result
of Python `re.compile` on a pattern string. -/
inductive Regex where
  | emp : Regex
  | eps : Regex
  | chr : Char → Regex
  | any : Regex
  | digit : Regex
  | alt : Regex → Regex → Regex
  | cat : Regex → Regex → Regex
  | star : Regex → Regex
deriving DecidableEq, Repr

/-- Does the regex accept the empty string? -/
def nullable : Regex → Bool
  | .emp => false
  | .eps => true
  | .chr _ => false
  | .any => false
  | .digit => false
  | .alt a b => nullable a || nullable b
  | .cat a b => nullable a && nullable b
  | .star _ => true

/-- Brzozowski derivative of a regex by one character. -/
def deriv : Regex → Char → Regex
  | .emp, _ => .emp
  | .eps, _ => .emp
  | .chr c, d => if c = d then .eps else .emp
  | .any, _ => .eps
  | .digit, d => if d.isDigit then .eps else .emp
  | .alt a b, d => .alt (deriv a d) (deriv b d)
  | .cat a b, d =>
    if nullable a then .alt (.cat (deriv a d) b) (deriv b d)
    else .cat (deriv a d) b
  | .star a, d => .cat (deriv a d) (.star a)

/-- Whole-string acceptance. -/
def accepts (r : Regex) : List Char → Bool
  | [] => nullable r
  | c :: cs => accepts (deriv r c) cs

/-- Python `re.match` semantics: the regex matches at position 0, i.e. it
accepts some prefix of the string (no full-string anchoring). -/
def rmatch (r : Regex) : List Char → Bool
  | [] => nullable r
  | c :: cs => nullable r || rmatch (deriv r c) cs

/-- The compiled form of a literal string pattern (a regex matching exactly
that sequence of characters). -/
def rstr (s : String) : Regex :=
  s.data.foldr (fun c r => .cat (.chr c) r) .eps

/-- Python `str.lower` (character-wise, as used on ASCII header names). -/
def lowerStr (s : String) : String := ⟨s.data.map Char.toLower⟩

/-- Python `str.upper` (character-wise, as used on ASCII method names). -/
def upperStr (s : String) : String := ⟨s.data.map Char.toUpper⟩

/-- First value bound to key `k` in an association list (Python `dict`
lookup; keys of a Python dict are unique, so taking the first binding is
faithful). -/
def dlookup (k : String) : List (String × α) → Option α
  | [] => none
  | p :: rest => if p.1 = k then some p.2 else dlookup k rest

/-- Python `dict` insertion: an existing key keeps its position and gets the
new value, a new key is appended at the end. -/
def dinsert (k : String) (v : α) : List (String × α) → List (String × α)
  | [] => [(k, v)]
  | p :: rest => if p.1 = k then (k, v) :: rest else p :: dinsert k v rest

/-- The key list of a dict (`dict.keys()`, in insertion order). -/
def keyList (d : List (String × α)) : List String := d.map Prod.fst

/-- `set(a) ⊆ set(b)` on key lists. -/
def subsetKeys (a b : List String) : Bool := a.all fun k => b.contains k

/-- Python `set(a) == set(b)` on key lists. -/
def keySetEq (a b : List String) : Bool := subsetKeys a b && subsetKeys b a

/-- Werkzeug `Headers.get`: the value of the first request header whose name
matches case-insensitively. -/
def hgetFirst (hs : List (String × String)) (n : String) : Option String :=
  (hs.find? fun p => lowerStr p.1 == lowerStr n).map Prod.snd

/-- A JSON-ish value of an extracted request-body field. -/
inductive Value where
  | vnull : Value
  | vbool : Bool → Value
  | vint : Int → Value
  | vstr : String → Value
deriving DecidableEq, Repr

/-- The coercion `str(value) if value is not None else ""` used by
`validate_field`. -/
def pyStr : Value → String
  | .vnull => ""
  | .vbool true => "True"
  | .vbool false => "False"
  | .vint n => toString n
  | .vstr s => s

/-- A body-field pattern as it reaches `re.match`: `ok r` when the YAML
pattern is a string compiling to `r`; `bad` when `re.match` raises on it
(`re.error` for a malformed regex string, `TypeError` for a non-string). -/
inductive Pat where
  | ok : Regex → Pat
  | bad : Pat
deriving DecidableEq, Repr

/-- `validate_field` (gate.py lines 379-405): stringify the value (`None`
becomes `""`), then `re.match(pattern, str_value)`; any exception from the
pattern evaluation yields `False`. -/
def validate_field (value : Value) (pattern : Pat) : Bool :=
  match pattern with
  | .bad => false
  | .ok r => rmatch r (pyStr value).data

/-- A declared header expectation of a rule, as normalized by
`normalize_rule` (a `name` and a `value` string). -/
structure HdrRule where
  name : String
  value : String
deriving DecidableEq, Repr

/-- Append `v` to the value list of key `nm` in the `expected_pairs` dict
(`expected_pairs[name].append(value)`), creating the entry if absent. -/
def addPair (nm v : String) : List (String × List String) → List (String × List String)
  | [] => [(nm, [v])]
  | p :: rest => if p.1 = nm then (p.1, p.2 ++ [v]) :: rest else p :: addPair nm v rest

/-- The `expected_pairs` construction loop of `validate_headers_exact`
(gate.py lines 328-339): lowercase each declared name, reject the whole rule
(`none`) when a declared name or value is empty, otherwise collect
`name -> [values]`. -/
def buildPairs : List HdrRule → List (String × List String) → Option (List (String × List String))
  | [], acc => some acc
  | h :: rest, acc =>
    let nm := lowerStr h.name
    if nm = "" ∨ h.value = "" then none
    else buildPairs rest (addPair nm h.value acc)

/-- The request-header scan of `validate_headers_exact` (gate.py lines
341-376): walk the request header names in order; a name not in
`expected_pairs` is ignored; for a declared name the request value (werkzeug
`get`, i.e. first case-insensitive match) must be among the declared values,
else return `false`; a second value match returns `false`; at the end the
single-match flag is the result. -/
def hloop (ep : List (String × List String)) (hs : List (String × String)) :
    List String → Bool → Bool
  | [], found => found
  | n :: rest, found =>
    match dlookup (lowerStr n) ep with
    | none => hloop ep hs rest found
    | some vals =>
      match hgetFirst hs n with
      | none => false
      | some v =>
        if vals.contains v then
          if found then false else hloop ep hs rest true
        else false

/-- `validate_headers_exact` (gate.py lines 311-376). -/
def validate_headers_exact (expected : List HdrRule) (hs : List (String × String)) : Bool :=
  if expected.isEmpty then true
  else
    match buildPairs expected [] with
    | none => false
    | some ep => hloop ep hs (hs.map Prod.fst) false

/-- Python `str.upper` (character-wise, as used on ASCII HTTP method
names). -/
def pyUpper (s : String) : String := upperStr s

/-- `validate_method` (gate.py lines 247-267): a rule without a method
(`None`) allows no method at all; otherwise compare case-insensitively. -/
def validate_method (allowed : Option String) (request_method : String) : Bool :=
  match allowed with
  | none => false
  | some a => pyUpper request_method == pyUpper a

/-- Does `pre` occur at the start of `s` (character list comparison)? -/
def leadsWith : List Char → List Char → Bool
  | [], _ => true
  | _ :: _, [] => false
  | p :: ps, c :: cs => p == c && leadsWith ps cs

/-- Remove the leading occurrence of `pre` from `s`, if present. -/
def chopLead : List Char → List Char → Option (List Char)
  | [], s => some s
  | _ :: _, [] => none
  | p :: ps, c :: cs => if p == c then chopLead ps cs else none

theorem chopLead_length {pre s r : List Char} (h : chopLead pre s = some r) :
    r.length ≤ s.length := by
  induction pre generalizing s with
  | nil => simp [chopLead] at h; simp [h]
  | cons p ps ih =>
    cases s with
    | nil => simp [chopLead] at h
    | cons c cs =>
      simp only [chopLead] at h
      split at h
      · exact le_trans (ih h) (Nat.le_succ _)
      · exact absurd h (by simp)

/-- Fuelled scan for `removeSub` (structural recursion on the fuel; the
fuel never runs out when it starts at the string length, see
`removeSubGo_fuel`). -/
def removeSubGo (p : Char) (ps : List Char) : Nat → List Char → List Char
  | 0, s => s
  | _ + 1, [] => []
  | f + 1, c :: cs =>
    match (if c == p then chopLead ps cs else none) with
    | some rest => removeSubGo p ps f rest
    | none => c :: removeSubGo p ps f cs

/-- Python `str.replace(pat, '')` for a non-empty literal `pat` (given as
head character plus tail): scan left to right, removing each non-overlapping
occurrence. -/
def removeSub (p : Char) (ps : List Char) (s : List Char) : List Char :=
  removeSubGo p ps s.length s

/-- The opening-brace character, `Char.ofNat 123`. -/
def lbrace : Char := Char.ofNat 123

/-- The closing-brace character, `Char.ofNat 125`. -/
def rbrace : Char := Char.ofNat 125

/-- Is the character an opening or closing brace? -/
def isBrace (c : Char) : Bool := c == lbrace || c == rbrace

/-- Python `str.strip` with both brace characters: drop any leading and
trailing braces. -/
def stripBraces (s : List Char) : List Char :=
  ((s.dropWhile isBrace).reverse.dropWhile isBrace).reverse

/-- A hexadecimal digit (either case), as accepted by `int(h, 16)`. -/
def isHexDigitCh (c : Char) : Bool :=
  c.isDigit || ('a' ≤ c && c ≤ 'f') || ('A' ≤ c && c ≤ 'F')

/-- The character cleanup of Python `uuid.UUID(value)`: drop `urn:` and
`uuid:` substrings, strip surrounding braces, remove all hyphens. -/
def uuidHex (s : List Char) : List Char :=
  (stripBraces
      (removeSub 'u' ['u', 'i', 'd', ':']
        (removeSub 'u' ['r', 'n', ':'] s))).filter fun c => c != '-'

/-- Models Python `uuid.UUID(value)` succeeding on a string: after the
cleanup the remainder must be exactly 32 hexadecimal digits. -/
def uuidOk (s : String) : Bool :=
  (uuidHex s.data).length == 32 && (uuidHex s.data).all isHexDigitCh

/-- `validate_rqid` (gate.py lines 270-308): if the rule does not require a
request id, pass; else find the first request header named `Rqid`
(case-insensitive), fail when absent, and otherwise require its value to
parse as a UUID. -/
def validate_rqid (expected_rqid : Bool) (hs : List (String × String)) : Bool :=
  if !expected_rqid then true
  else
    match (hs.map Prod.fst).find? (fun n => lowerStr n == "rqid") with
    | none => false
    | some name =>
      match hgetFirst hs name with
      | none => uuidOk ""
      | some v => uuidOk v

/-- A normalized rule body shape: `'*'` (any body), a field map (the empty
map meaning "no body expected"), or an unrecognized YAML shape kept as-is by
`normalize_rule` and rejected by `validate_body_structure`. -/
inductive BodyShape where
  | wildcard : BodyShape
  | fields : List (String × Pat) → BodyShape
  | invalid : BodyShape
deriving DecidableEq, Repr

/-- `validate_body_structure` (gate.py lines 408-470): `'*'` passes; an
empty expected dict requires an empty actual body; a field dict requires
exact key-set equality and every field to pass `validate_field`; any other
expected shape fails. -/
def validate_body_structure (expected : BodyShape) (actual : List (String × Value)) : Bool :=
  match expected with
  | .wildcard => true
  | .fields m =>
    if m.isEmpty then actual.isEmpty
    else if keySetEq (keyList m) (keyList actual) then
      m.all fun fp =>
        match dlookup fp.1 actual with
        | none => false
        | some v => validate_field v fp.2
    else false
  | .invalid => false

/-- A rule path pattern: the raw pattern string together with the result of
Python `re.compile` on it (`none` when compiling raises `re.error`). -/
structure PathPat where
  str : String
  compiled : Option Regex
deriving DecidableEq, Repr

/-- A rule as produced by `load_schemas` from `normalize_rule` plus the
`name` / `rqid` fields attached in the load loop (gate.py lines 98-105). -/
structure Rule where
  name : String
  path : PathPat
  method : Option String
  headers : List HdrRule
  rqid : Bool
  body : BodyShape
deriving DecidableEq, Repr

/-- `compile_path_pattern` (gate.py lines 200-218): return the compiled
pattern, raising `GateValidationError` (`Except.error`) when `re.compile`
fails.  The per-pattern-string cache only memoizes successful compiles and
does not change the result, so it is not modelled. -/
def compile_path_pattern (p : PathPat) : Except String Regex :=
  match p.compiled with
  | some r => .ok r
  | none => .error p.str

/-- Does a rule path pattern match a request path under `re.match` (position
0) semantics?  An uncompilable pattern matches nothing. -/
def pathMatches (p : PathPat) (path : String) : Bool :=
  match p.compiled with
  | some r => rmatch r path.data
  | none => false

/-- `find_matching_rule` (gate.py lines 221-244) on an already-loaded rule
table: scan in order, skip rules with an empty pattern string, compile the
pattern (propagating a compile failure as `Except.error`), and return the
first rule whose pattern `re.match`es the request path.  (In the source the
rule table is obtained by `load_schemas()` at the top of the function; here
the caller passes it in, see `intercept`.) -/
def find_matching_rule (rules : List Rule) (path : String) : Except String (Option Rule) :=
  match rules with
  | [] => .ok none
  | r :: rest =>
    if r.path.str = "" then find_matching_rule rest path
    else
      match compile_path_pattern r.path with
      | .error e => .error e
      | .ok re => if rmatch re path.data then .ok (some r) else find_matching_rule rest path

/-- A raw `headers` list entry of a rule document: either not a mapping
(dropped by `normalize_rule`) or a mapping with optional `name` and `value`
keys. -/
inductive RawHdr where
  | notDict : RawHdr
  | entry : Option String → Option String → RawHdr
deriving DecidableEq, Repr

/-- Normalization of one raw header entry (gate.py lines 157-164). -/
def normHdr : RawHdr → Option HdrRule
  | .notDict => none
  | .entry n v => some ⟨lowerStr (n.getD ""), v.getD ""⟩

/-- Normalization of a raw header list: non-mapping entries are dropped. -/
def normHeaders (hs : List RawHdr) : List HdrRule := hs.filterMap normHdr

/-- A raw `body` list item: a mapping of field names to patterns, a bare
field-name string, or anything else (silently ignored by the merge loop,
gate.py lines 182-188). -/
inductive RawBodyItem where
  | fieldMap : List (String × Pat) → RawBodyItem
  | fieldName : String → RawBodyItem
  | other : RawBodyItem
deriving DecidableEq, Repr

/-- A raw rule `body` value after `rule.get('body', []) or []` (gate.py line
153): the string `'*'`, a list, or any other truthy YAML value.  `none` at
the use site stands for an absent/null/falsy body (normalized to `[]`). -/
inductive RawBody where
  | star : RawBody
  | list : List RawBodyItem → RawBody
  | other : RawBody
deriving DecidableEq, Repr

/-- One step of the `body_fields` merge loop (gate.py lines 182-188): a
mapping item contributes each of its `field -> pattern` pairs, a bare string
item contributes the field with pattern `.*` (compiled: `(any)*`), anything
else is ignored. -/
def addBodyItem (acc : List (String × Pat)) : RawBodyItem → List (String × Pat)
  | .fieldMap kvs => kvs.foldl (fun a kv => dinsert kv.1 kv.2 a) acc
  | .fieldName s => dinsert s (.ok (Regex.star Regex.any)) acc
  | .other => acc

/-- The `body_fields` dict built from a raw body list. -/
def mergeItems (items : List RawBodyItem) : List (String × Pat) :=
  items.foldl addBodyItem []

/-- Body normalization of `normalize_rule` (gate.py lines 166-195). -/
def normalizeBody : Option RawBody → BodyShape
  | none => .fields []
  | some .star => .wildcard
  | some (.list items) =>
    if items.isEmpty then .fields [] else .fields (mergeItems items)
  | some .other => .invalid

/-- Method normalization (gate.py line 151):
`rule.get('method', '').upper() if rule.get('method') else None`; a falsy
(absent, null or empty) method stays `None`. -/
def normMethod : Option String → Option String
  | none => none
  | some m => if m = "" then none else some (pyUpper m)

/-- The `rule` mapping of one document entry.  `path` carries the pattern
string together with its `re.compile` result; an absent `path` defaults to
the empty string. -/
structure RuleSpec where
  path : Option PathPat
  method : Option String
  headers : Option (List RawHdr)
  body : Option RawBody
  rqid : Bool
deriving DecidableEq, Repr

/-- `normalize_rule` (gate.py lines 142-197); `name` and `rqid` are attached
afterwards by the load loop. -/
def normalize_rule (spec : RuleSpec) : Rule where
  name := ""
  path := spec.path.getD ⟨"", some Regex.eps⟩
  method := normMethod spec.method
  headers := normHeaders (spec.headers.getD [])
  rqid := false
  body := normalizeBody spec.body

/-- One entry of the `gate.api` list: either a mapping without a `rule` key
(skipped), or a mapping with an optional `name` and a `rule` value; a
non-mapping `rule` value makes `normalize_rule` raise, so the entry is
skipped as well. -/
inductive RawEntry where
  | noRule : RawEntry
  | entry : Option String → Option RuleSpec → RawEntry
deriving DecidableEq, Repr

/-- Normalization of one indexed entry of the load loop (gate.py lines
98-112): `none` when the entry is skipped. -/
def normalizeEntry (idx : Nat) : RawEntry → Option Rule
  | .noRule => none
  | .entry _ none => none
  | .entry nm (some spec) =>
    let r := normalize_rule spec
    some { r with name := nm.getD ("unnamed_" ++ toString idx), rqid := spec.rqid }

/-- The full normalization pass over the `gate.api` entries. -/
def normalizeEntries (entries : List RawEntry) : List Rule :=
  entries.enum.filterMap fun p => normalizeEntry p.1 p.2

/-- The parsed rule document: `bad` for any load failure before
normalization (file missing, YAML parse error, missing `gate` key,
`gate.api` not a list), `ok` for a well-shaped document. -/
inductive LoadDoc where
  | bad : String → LoadDoc
  | ok : List RawEntry → LoadDoc
deriving DecidableEq, Repr

/-- The module-level gateway state: `_schemas_cache`, `_gate_healthy`,
`_gate_init_error`. -/
structure GState where
  cache : Option (List Rule)
  healthy : Bool
  initError : Option String
deriving DecidableEq, Repr

/-- The state at module import time (gate.py lines 24-29). -/
def initGState : GState := ⟨none, true, none⟩

/-- `load_schemas` (gate.py lines 37-139): return the cached table when
present; otherwise a bad document marks the gateway unhealthy and raises
(`Except.error`) leaving the cache untouched, and a good document is
normalized, cached, and marks the gateway healthy. -/
def load_schemas (doc : LoadDoc) (s : GState) : Except String (List Rule) × GState :=
  match s.cache with
  | some t => (.ok t, s)
  | none =>
    match doc with
    | .bad msg => (.error msg, { s with healthy := false, initError := some msg })
    | .ok entries =>
      let rules := normalizeEntries entries
      (.ok rules, { cache := some rules, healthy := true, initError := none })

/-- An intercepted HTTP request as seen by `validate_request`: path (query
stripped), method, header list, and the body mapping already extracted by
`extract_request_body` (an external parsing boundary; unparseable bodies
degrade to the empty mapping there). -/
structure Request where
  path : String
  method : String
  headers : List (String × String)
  body : List (String × Value)
deriving DecidableEq, Repr

/-- The terminal outcome of interception: pass the request through
(`allow`, recording the matched rule name in `gate_context`) or answer
directly with an HTTP status code. -/
inductive Outcome where
  | allow : String → Outcome
  | reject : Nat → Outcome
deriving DecidableEq, Repr

/-- The validator pipeline of `validate_request` once a rule is found
(gate.py lines 543-585): method, exact headers, request id, then body
structure, each failure answering 403, success allowing the request. -/
def runChecks (rule : Rule) (req : Request) : Outcome :=
  if !validate_method rule.method req.method then .reject 403
  else if !validate_headers_exact rule.headers req.headers then .reject 403
  else if !validate_rqid rule.rqid req.headers then .reject 403
  else if !validate_body_structure rule.body req.body then .reject 403
  else .allow rule.name

/-- `validate_request` (gate.py lines 515-592), the `before_request` hook
installed by `gate_middleware`: an unhealthy gateway answers 504 before
anything else; otherwise the rule table is loaded (the call inside
`find_matching_rule`), a load or pattern-compile exception is caught and
answered with 504, an unmatched path with 403, and a matched rule runs the
validator pipeline. -/
def intercept (doc : LoadDoc) (req : Request) (s : GState) : Outcome × GState :=
  if !s.healthy then (.reject 504, s)
  else
    match load_schemas doc s with
    | (.error _, s') => (.reject 504, s')
    | (.ok rules, s') =>
      match find_matching_rule rules req.path with
      | .error _ => (.reject 504, s')
      | .ok none => (.reject 403, s')
      | .ok (some rule) => (runChecks rule req, s')

/-- Interception of a sequence of requests, threading the gateway state. -/
def runGate (doc : LoadDoc) : List Request → GState → List Outcome × GState
  | [], s => ([], s)
  | r :: rs, s =>
    let p := intercept doc r s
    let q := runGate doc rs p.2
    (p.1 :: q.1, q.2)

/-- `init_gate` (gate.py lines 608-664): attempt the initial load; on any
load exception mark the gateway unhealthy with the error message.  The
interception hook is installed in both cases. -/
def init_gate (doc : LoadDoc) (s : GState) : GState :=
  match load_schemas doc s with
  | (.ok _, s') => s'
  | (.error e, s') => { s' with healthy := false, initError := some e }

/-- The monitoring record returned by `get_gate_status`. -/
structure GateStatus where
  healthy : Bool
  error : Option String
  rules_loaded : Nat
deriving DecidableEq, Repr

/-- `get_gate_status` (gate.py lines 667-680), a pure read of the module
state. -/
def get_gate_status (s : GState) : GateStatus where
  healthy := s.healthy
  error := s.initError
  rules_loaded := match s.cache with | some t => t.length | none => 0

/-! ## General lemmas about the embedding -/

/-- The per-rule validator pipeline ends in a policy rejection or an
allow. -/
theorem runChecks_cases (rule : Rule) (req : Request) :
    runChecks rule req = .reject 403 ∨ runChecks rule req = .allow rule.name := by
  unfold runChecks
  repeat' split
  all_goals simp

/-- A declared header entry with an empty (lowercased) name or an empty
value aborts the `expected_pairs` construction. -/
theorem buildPairs_none {lst : List HdrRule}
    (h : ∃ x ∈ lst, lowerStr x.name = "" ∨ x.value = "") :
    ∀ acc, buildPairs lst acc = none := by
  induction lst with
  | nil => rcases h with ⟨x, hx, _⟩; cases hx
  | cons a l ih =>
    intro acc
    rcases h with ⟨x, hx, hbad⟩
    rcases List.mem_cons.mp hx with rfl | hx'
    · simp only [buildPairs]
      rw [if_pos hbad]
    · simp only [buildPairs]
      by_cases hcond : lowerStr a.name = "" ∨ a.value = ""
      · rw [if_pos hcond]
      · rw [if_neg hcond]
        exact ih ⟨x, hx', hbad⟩ _

/-- The values declared for a lowercased header name by a rule's header
list, in declaration order.  This is the specification-side reading of the
`expected_pairs` multimap. -/
def declaredVals (expected : List HdrRule) (n : String) : List String :=
  (expected.filter fun h => lowerStr h.name == n).map fun h => h.value

/-- A request header pair whose lowercased name is declared by the rule. -/
def dvNE (expected : List HdrRule) (p : String × String) : Bool :=
  !(declaredVals expected (lowerStr p.1)).isEmpty

/-- A request header pair matching a declared `(name, value)` pair:
case-insensitive on the name, exact on the value. -/
def dvHit (expected : List HdrRule) (p : String × String) : Bool :=
  (declaredVals expected (lowerStr p.1)).contains p.2

/-! ## C2: a degraded gateway rejects everything with 504, forever -/

/-- C2: if the gateway is degraded (`_gate_healthy` false), every request of
any content is answered 504 and the state is unchanged across any request
sequence; the status query is a pure read reporting unhealthy; and a failed
initial load leaves the gateway degraded. -/
theorem degraded_always_504 (doc : LoadDoc) (reqs : List Request) (s : GState)
    (hdeg : s.healthy = false) :
    runGate doc reqs s = (reqs.map fun _ => Outcome.reject 504, s)
    ∧ (get_gate_status s).healthy = false
    ∧ ∀ msg, (init_gate (LoadDoc.bad msg) initGState).healthy = false := by
  refine ⟨?_, ?_, fun msg => rfl⟩
  · induction reqs with
    | nil => simp [runGate]
    | cons r rs ih =>
      have hi : intercept doc r s = (.reject 504, s) := by
        simp [intercept, hdeg]
      simp [runGate, hi, ih]
  · simp [get_gate_status, hdeg]

/-- Witness for C2 at a concrete degraded state and request. -/
theorem degraded_always_504_witness :
    runGate (LoadDoc.bad "e") [⟨"/a", "GET", [], []⟩] ⟨none, false, some "e"⟩
      = ([Outcome.reject 504], ⟨none, false, some "e"⟩) :=
  (degraded_always_504 (LoadDoc.bad "e") [⟨"/a", "GET", [], []⟩]
    ⟨none, false, some "e"⟩ rfl).1

/-! ## C5: an absent rule method never matches -/

/-- C5: a rule whose normalized method is `None` fails the method check for
every request method (so a path-matched request is rejected 403), and a
present method passes the check exactly on a case-insensitive match. -/
theorem method_none_spec :
    (∀ m, validate_method none m = false)
    ∧ (∀ a m, validate_method (some a) m = true ↔ pyUpper m = pyUpper a)
    ∧ (∀ doc st (req : Request) rules rule, st.healthy = true → st.cache = some rules →
        find_matching_rule rules req.path = .ok (some rule) →
        rule.method = none →
        intercept doc req st = (.reject 403, st)) := by
  refine ⟨fun m => rfl, fun a m => by simp [validate_method], ?_⟩
  intro doc st req rules rule hh hc hf hm
  simp [intercept, hh, load_schemas, hc, hf, runChecks, validate_method, hm]

/-- Witness for C5: a GET to a rule with no declared method is rejected
403. -/
theorem method_none_spec_witness :
    intercept (LoadDoc.ok []) ⟨"/a", "GET", [], []⟩
        ⟨some [⟨"r", ⟨"^/a", some (rstr "/a")⟩, none, [], false, .wildcard⟩], true, none⟩
      = (.reject 403,
         ⟨some [⟨"r", ⟨"^/a", some (rstr "/a")⟩, none, [], false, .wildcard⟩], true, none⟩) :=
  method_none_spec.2.2 (LoadDoc.ok []) _ ⟨"/a", "GET", [], []⟩ _
    ⟨"r", ⟨"^/a", some (rstr "/a")⟩, none, [], false, .wildcard⟩ rfl rfl rfl rfl

/-! ## C8: wildcard and empty body shapes -/

/-- C8: a wildcard body rule accepts any extracted body, and an empty body
shape accepts exactly the bodies whose extracted mapping has no keys. -/
theorem body_wildcard_empty_spec :
    (∀ actual, validate_body_structure .wildcard actual = true)
    ∧ (∀ actual, validate_body_structure (.fields []) actual = true ↔ actual = []) := by
  refine ⟨fun actual => rfl, fun actual => ?_⟩
  cases actual <;> simp [validate_body_structure]

/-- `load_schemas` returns a present cache unchanged. -/
theorem load_cached {s : GState} {t : List Rule} (doc : LoadDoc) (h : s.cache = some t) :
    load_schemas doc s = (.ok t, s) := by
  simp only [load_schemas, h]

/-- `load_schemas` on a bad document with an empty cache raises and marks
the gateway unhealthy, leaving the cache untouched. -/
theorem load_bad {s : GState} (msg : String) (h : s.cache = none) :
    load_schemas (.bad msg) s
      = (.error msg, { s with healthy := false, initError := some msg }) := by
  simp only [load_schemas, h]

/-- `load_schemas` on a good document with an empty cache normalizes,
caches, and marks the gateway healthy. -/
theorem load_good {s : GState} (entries : List RawEntry) (h : s.cache = none) :
    load_schemas (.ok entries) s
      = (.ok (normalizeEntries entries),
         ⟨some (normalizeEntries entries), true, none⟩) := by
  simp only [load_schemas, h]

/-! ## C9: the rule load is atomic and idempotent -/

/-- C9: a failed load never touches the rule cache (so a failed first load
leaves it empty and an explicit retry can still succeed), and after one
successful load every further call returns the identical cached table
without consulting the document again. -/
theorem load_schemas_atomic_idempotent (doc doc2 : LoadDoc) (s : GState) :
    (∀ e s2, load_schemas doc s = (.error e, s2) → s2.cache = s.cache)
    ∧ (∀ t s2, load_schemas doc s = (.ok t, s2) → load_schemas doc2 s2 = (.ok t, s2))
    ∧ (∀ e s2 entries, load_schemas doc s = (.error e, s2) →
        (load_schemas (.ok entries) s2).1 = .ok (normalizeEntries entries)) := by
  cases hc : s.cache with
  | some t =>
    refine ⟨?_, ?_, ?_⟩
    · intro e s2 h
      rw [load_cached doc hc] at h
      simp at h
    · intro t' s2 h
      rw [load_cached doc hc] at h
      cases h
      exact load_cached doc2 hc
    · intro e s2 entries h
      rw [load_cached doc hc] at h
      simp at h
  | none =>
    cases doc with
    | bad msg =>
      refine ⟨?_, ?_, ?_⟩
      · intro e s2 h
        rw [load_bad msg hc] at h
        cases h
        exact hc
      · intro t' s2 h
        rw [load_bad msg hc] at h
        simp at h
      · intro e s2 entries h
        rw [load_bad msg hc] at h
        cases h
        rw [@load_good { s with healthy := false, initError := some msg } entries hc]
    | ok entries0 =>
      refine ⟨?_, ?_, ?_⟩
      · intro e s2 h
        rw [load_good entries0 hc] at h
        simp at h
      · intro t' s2 h
        rw [load_good entries0 hc] at h
        cases h
        exact load_cached doc2 rfl
      · intro e s2 entries h
        rw [load_good entries0 hc] at h
        simp at h

/-- Witness for C9: after loading an empty document, a second load with a
different (even bad) document returns the cached empty table unchanged. -/
theorem load_schemas_atomic_idempotent_witness :
    load_schemas (LoadDoc.bad "z") ⟨some [], true, none⟩
      = (.ok [], ⟨some [], true, none⟩) :=
  (load_schemas_atomic_idempotent (LoadDoc.ok []) (LoadDoc.bad "z") initGState).2.1
    [] ⟨some [], true, none⟩ rfl

/-! ## C6: internal exceptions are caught and mapped to 504 -/

/-- C6: while healthy, an exception raised inside matching/validation — in
particular the `GateValidationError` from a rule path pattern that fails to
compile at first use — is caught by `validate_request` and answered 504
(distinct from the policy 403); a load failure surfacing inside the request
is likewise 504; and interception is total (it always returns an allow, a
403, or a 504 — nothing propagates to the host HTTP layer). -/
theorem internal_error_504 :
    (∀ doc st (req : Request) rules e, st.healthy = true → st.cache = some rules →
        find_matching_rule rules req.path = .error e →
        intercept doc req st = (.reject 504, st))
    ∧ (∀ msg st (req : Request), st.healthy = true → st.cache = none →
        (intercept (.bad msg) req st).1 = .reject 504)
    ∧ (∀ doc (req : Request) st, (intercept doc req st).1 = .reject 403
        ∨ (intercept doc req st).1 = .reject 504
        ∨ ∃ nm, (intercept doc req st).1 = .allow nm)
    ∧ Outcome.reject 504 ≠ Outcome.reject 403 := by
  refine ⟨?_, ?_, ?_, by simp⟩
  · intro doc st req rules e hh hc hf
    simp [intercept, hh, load_cached doc hc, hf]
  · intro msg st req hh hc
    simp [intercept, hh, load_bad msg hc]
  · intro doc req st
    by_cases hh : st.healthy
    · rcases hl : load_schemas doc st with ⟨res, s'⟩
      cases res with
      | error e => simp [intercept, hh, hl]
      | ok rules =>
        cases hf : find_matching_rule rules req.path with
        | error e => simp [intercept, hh, hl, hf]
        | ok o =>
          cases o with
          | none => simp [intercept, hh, hl, hf]
          | some rule =>
            have hrc := runChecks_cases rule req
            rcases hrc with h | h
            · left; simp [intercept, hh, hl, hf, h]
            · right; right
              exact ⟨rule.name, by simp [intercept, hh, hl, hf, h]⟩
    · right; left
      simp [intercept, Bool.not_eq_true _ ▸ hh]
  -- (the final conjunct 504 ≠ 403 was discharged above)

/-- Witness for C6: a healthy gateway whose first rule has an uncompilable
path pattern answers 504, not 403, to a request reaching that rule. -/
theorem internal_error_504_witness :
    intercept (LoadDoc.ok []) ⟨"/x", "GET", [], []⟩
        ⟨some [⟨"badpat", ⟨"(", none⟩, some "GET", [], false, .wildcard⟩], true, none⟩
      = (.reject 504,
         ⟨some [⟨"badpat", ⟨"(", none⟩, some "GET", [], false, .wildcard⟩], true, none⟩) :=
  internal_error_504.1 (LoadDoc.ok []) _ ⟨"/x", "GET", [], []⟩
    [⟨"badpat", ⟨"(", none⟩, some "GET", [], false, .wildcard⟩] "(" rfl rfl rfl

/-! ## C10: a declared header entry with empty name or value blocks the rule -/

/-- C10: a non-empty declared header list containing an entry with an empty
name or an empty value makes the exact-header check fail for every possible
request header set, so any request that matches such a rule's path and
method is rejected 403 at the header stage. -/
theorem bad_header_rule_rejects_all (expected : List HdrRule)
    (hne : expected ≠ [])
    (hbad : ∃ x ∈ expected, lowerStr x.name = "" ∨ x.value = "") :
    (∀ hs, validate_headers_exact expected hs = false)
    ∧ (∀ doc st (req : Request) rules rule, st.healthy = true → st.cache = some rules →
        find_matching_rule rules req.path = .ok (some rule) →
        rule.headers = expected →
        validate_method rule.method req.method = true →
        intercept doc req st = (.reject 403, st)) := by
  have hie : expected.isEmpty = false := by
    cases expected with
    | nil => exact absurd rfl hne
    | cons a l => rfl
  have hv : ∀ hs, validate_headers_exact expected hs = false := by
    intro hs
    unfold validate_headers_exact
    rw [hie, buildPairs_none hbad]
    simp
  refine ⟨hv, ?_⟩
  intro doc st req rules rule hh hc hf hrh hm
  simp [intercept, hh, load_cached doc hc, hf, runChecks, hm, hrh, hv]

/-- Witness for C10 at the entry with an empty value. -/
theorem bad_header_rule_rejects_all_witness :
    validate_headers_exact [⟨"x", ""⟩] [("x", "")] = false :=
  (bad_header_rule_rejects_all [⟨"x", ""⟩] (by simp)
    ⟨⟨"x", ""⟩, by simp, Or.inr rfl⟩).1 [("x", "")]

/-! ## C1: the exact-header check (corrected) -/

/-- The claim of C1 read literally is false on the code: a declared header
entry whose value is the empty string can be matched by exactly one request
header, yet `validate_headers_exact` rejects (it aborts on any declared
entry with empty name or value, see C10).  Concretely with declared
`[(name "x", value "")]` and the single request header `("x", "")`: exactly
one request header matches a declared pair and no declared-name header has
an undeclared value, but the check returns `false`. -/
theorem headers_exact_claim_counterexample :
    ¬ (validate_headers_exact [⟨"x", ""⟩] [("x", "")] = true ↔
        (([("x", "")].filter (dvHit [⟨"x", ""⟩])).length = 1
         ∧ ∀ p ∈ [("x", "")], dvNE [⟨"x", ""⟩] p = true →
             dvHit [⟨"x", ""⟩] p = true)) := by
  decide

/-! ## C4: first-match rule scan with prefix semantics -/

/-- `re.match` accepts exactly the strings of which the regex accepts some
prefix (unanchored prefix semantics, not whole-string equality). -/
theorem rmatch_iff_prefix (r : Regex) (s : List Char) :
    rmatch r s = true ↔ ∃ p q, s = p ++ q ∧ accepts r p = true := by
  induction s generalizing r with
  | nil =>
    constructor
    · intro h
      exact ⟨[], [], rfl, h⟩
    · rintro ⟨p, q, hpq, hacc⟩
      have hp : p = [] := (List.append_eq_nil.mp hpq.symm).1
      subst hp
      exact hacc
  | cons c cs ih =>
    constructor
    · intro h
      simp only [rmatch, Bool.or_eq_true] at h
      rcases h with hn | hm
      · exact ⟨[], c :: cs, rfl, hn⟩
      · rcases (ih (deriv r c)).mp hm with ⟨p, q, hpq, hacc⟩
        exact ⟨c :: p, q, by rw [List.cons_append, hpq], hacc⟩
    · rintro ⟨p, q, hpq, hacc⟩
      simp only [rmatch, Bool.or_eq_true]
      cases p with
      | nil => exact Or.inl hacc
      | cons d p' =>
        right
        rw [List.cons_append] at hpq
        injection hpq with h1 h2
        subst h1
        exact (ih (deriv r c)).mpr ⟨p', q, h2, hacc⟩

/-- The specification-side predicate for the rule scan: a rule is hit when
its pattern string is non-empty and its compiled pattern `re.match`es the
path. -/
def ruleHit (path : String) (r : Rule) : Bool :=
  (!(r.path.str == "")) && pathMatches r.path path

/-- On a table whose non-empty patterns all compile, `find_matching_rule` is
the first-match scan by `ruleHit`. -/
theorem find_matching_rule_eq {rules : List Rule} {path : String}
    (hcomp : ∀ r ∈ rules, r.path.str ≠ "" → (r.path.compiled).isSome = true) :
    find_matching_rule rules path = .ok (rules.find? (ruleHit path)) := by
  induction rules with
  | nil => rfl
  | cons r rest ih =>
    have ihr := ih fun x hx => hcomp x (List.mem_cons_of_mem _ hx)
    by_cases hs : r.path.str = ""
    · have hhit : ruleHit path r = false := by simp [ruleHit, hs]
      rw [find_matching_rule, if_pos hs, List.find?_cons_of_neg _ (by simp [hhit])]
      exact ihr
    · have hsome := hcomp r (List.mem_cons_self r rest) hs
      rcases hre : r.path.compiled with _ | re
      · rw [hre] at hsome; simp at hsome
      · have hcp : compile_path_pattern r.path = .ok re := by
          simp [compile_path_pattern, hre]
        have hhit : ruleHit path r = rmatch re path.data := by
          simp [ruleHit, hs, pathMatches, hre]
        rw [find_matching_rule, if_neg hs, hcp]
        cases hm : rmatch re path.data with
        | true =>
          rw [List.find?_cons_of_pos _ (by rw [hhit, hm])]
          simp [hm]
        | false =>
          rw [List.find?_cons_of_neg _ (by simp [hhit, hm])]
          simpa [hm] using ihr

/-- C4: while loading succeeds, the matcher scans rules in declaration
order and returns the first rule whose pattern string is non-empty and
whose compiled pattern matches the request path at position 0 — where
matching means accepting some prefix of the path, not full-path equality —
and a path hitting no rule is rejected 403 whatever the method, headers and
body are. -/
theorem find_matching_rule_spec (rules : List Rule) (path : String)
    (hcomp : ∀ r ∈ rules, r.path.str ≠ "" → (r.path.compiled).isSome = true) :
    find_matching_rule rules path = .ok (rules.find? (ruleHit path))
    ∧ (∀ r s, rmatch r s = true ↔ ∃ p q, s = p ++ q ∧ accepts r p = true)
    ∧ (∀ doc st (req : Request) rules2,
        st.healthy = true → st.cache = some rules2 →
        (∀ r ∈ rules2, r.path.str ≠ "" → (r.path.compiled).isSome = true) →
        rules2.find? (ruleHit req.path) = none →
        intercept doc req st = (.reject 403, st)) := by
  refine ⟨find_matching_rule_eq hcomp, rmatch_iff_prefix, ?_⟩
  intro doc st req rules2 hh hc hcomp2 hfnone
  have hf : find_matching_rule rules2 req.path = .ok none := by
    rw [find_matching_rule_eq hcomp2, hfnone]
  simp [intercept, hh, load_cached doc hc, hf]

/-- Witness for C4: the empty-pattern rule is skipped and the second rule
is the first hit for `/api/x`. -/
theorem find_matching_rule_spec_witness :
    find_matching_rule
        [⟨"empty", ⟨"", none⟩, none, [], false, .wildcard⟩,
         ⟨"api", ⟨"^/api/", some (rstr "/api/")⟩, some "GET", [], false, .wildcard⟩]
        "/api/x"
      = .ok (some ⟨"api", ⟨"^/api/", some (rstr "/api/")⟩, some "GET", [], false, .wildcard⟩) :=
  (find_matching_rule_spec
    [⟨"empty", ⟨"", none⟩, none, [], false, .wildcard⟩,
     ⟨"api", ⟨"^/api/", some (rstr "/api/")⟩, some "GET", [], false, .wildcard⟩]
    "/api/x" (by decide)).1

/-! ## C7: the request-id check -/

/-- Every character of a matched leading pattern occurs in the string. -/
theorem chopLead_subset {pre s r : List Char} (h : chopLead pre s = some r) :
    ∀ x ∈ pre, x ∈ s := by
  induction pre generalizing s with
  | nil => intro x hx; cases hx
  | cons p ps ih =>
    cases s with
    | nil => simp [chopLead] at h
    | cons c cs =>
      simp only [chopLead] at h
      split at h
      · intro x hx
        rcases List.mem_cons.mp hx with rfl | hx'
        · rename_i hpc
          rw [show x = c from beq_iff_eq.mp hpc]
          exact List.mem_cons_self c cs
        · exact List.mem_cons_of_mem _ (ih h x hx')
      · exact absurd h (by simp)

/-- If some character of the pattern does not occur in the string, the
fuelled remove-substring scan leaves the string unchanged. -/
theorem removeSubGo_eq_self {p : Char} {ps : List Char} {q : Char}
    (hq : q = p ∨ q ∈ ps) :
    ∀ (f : Nat) (s : List Char), q ∉ s → removeSubGo p ps f s = s := by
  intro f
  induction f with
  | zero => intro s _; rfl
  | succ f ih =>
    intro s hqs
    cases s with
    | nil => rfl
    | cons c cs =>
      have hnone : (if c == p then chopLead ps cs else none) = none := by
        by_cases hc : (c == p) = true
        · rw [if_pos hc]
          cases hcl : chopLead ps cs with
          | none => rfl
          | some rest =>
            exfalso
            rcases hq with rfl | hqs'
            · exact hqs (by simp [beq_iff_eq.mp hc])
            · exact hqs (List.mem_cons_of_mem _ (chopLead_subset hcl q hqs'))
        · rw [if_neg hc]
      rw [removeSubGo, hnone]
      have : q ∉ cs := fun hm => hqs (List.mem_cons_of_mem _ hm)
      rw [ih cs this]

/-- `removeSub` is the identity when some pattern character is absent from
the string. -/
theorem removeSub_eq_self {p : Char} {ps : List Char} {q : Char}
    (hq : q = p ∨ q ∈ ps) {s : List Char} (hqs : q ∉ s) :
    removeSub p ps s = s :=
  removeSubGo_eq_self hq s.length s hqs

/-- `dropWhile` is the identity when no element satisfies the predicate. -/
theorem dropWhile_all_false {pr : Char → Bool} {l : List Char}
    (h : ∀ c ∈ l, pr c = false) : l.dropWhile pr = l := by
  cases l with
  | nil => rfl
  | cons c cs => simp [List.dropWhile_cons, h c (List.mem_cons_self c cs)]

/-- `stripBraces` is the identity on brace-free strings. -/
theorem stripBraces_eq_self {s : List Char} (h : ∀ c ∈ s, isBrace c = false) :
    stripBraces s = s := by
  unfold stripBraces
  rw [dropWhile_all_false h]
  rw [dropWhile_all_false fun c hc => h c (List.mem_reverse.mp hc)]
  exact List.reverse_reverse s

/-- A hexadecimal digit is neither a colon, a hyphen, nor a brace. -/
theorem hex_not_special {c : Char} (h : isHexDigitCh c = true) :
    c ≠ ':' ∧ isBrace c = false := by
  refine ⟨fun hc => ?_, ?_⟩
  · subst hc; exact absurd h (by decide)
  · cases hb : isBrace c
    · rfl
    · exfalso
      have hb' : c = lbrace ∨ c = rbrace := by simpa [isBrace] using hb
      rcases hb' with rfl | rfl
      · exact absurd h (by decide)
      · exact absurd h (by decide)

/-- Any string of hexadecimal digits and hyphens whose hyphen-free residue
has exactly 32 characters parses as a UUID (this covers both the hyphenated
8-4-4-4-12 form and the bare 32-hex-digit form). -/
theorem uuidOk_of_hex_hyphens {s : String}
    (hchars : ∀ c ∈ s.data, isHexDigitCh c = true ∨ c = '-')
    (hlen : (s.data.filter fun c => c != '-').length = 32) :
    uuidOk s = true := by
  have hcolon : ':' ∉ s.data := by
    intro hmem
    rcases hchars _ hmem with hx | hd
    · exact (hex_not_special hx).1 rfl
    · cases hd
  have hbr : ∀ c ∈ s.data, isBrace c = false := by
    intro c hc
    rcases hchars c hc with hx | rfl
    · exact (hex_not_special hx).2
    · decide
  have hres : uuidHex s.data = s.data.filter fun c => c != '-' := by
    unfold uuidHex
    rw [@removeSub_eq_self 'u' ['r', 'n', ':'] ':' (Or.inr (by decide)) s.data hcolon,
        @removeSub_eq_self 'u' ['u', 'i', 'd', ':'] ':' (Or.inr (by decide)) s.data hcolon,
        stripBraces_eq_self hbr]
  have hall : (s.data.filter fun c => c != '-').all isHexDigitCh = true := by
    rw [List.all_eq_true]
    intro c hc
    rcases List.mem_filter.mp hc with ⟨hmem, hne⟩
    rcases hchars c hmem with hx | rfl
    · exact hx
    · simp at hne
  unfold uuidOk
  rw [hres]
  simp [hlen, hall]

/-- The single characterization of `validate_rqid` when the rule requires a
request id: pass exactly when the first request header named `rqid`
(case-insensitively) exists and its value parses as a UUID. -/
theorem validate_rqid_true_iff (hs : List (String × String)) :
    validate_rqid true hs = true ↔
      ∃ v, (hs.find? fun p => lowerStr p.1 == "rqid").map Prod.snd = some v
           ∧ uuidOk v = true := by
  have hmap : (hs.map Prod.fst).find? (fun n => lowerStr n == "rqid")
      = (hs.find? fun p => lowerStr p.1 == "rqid").map Prod.fst :=
    List.find?_map Prod.fst hs
  unfold validate_rqid
  rw [hmap]
  cases hf : hs.find? fun p => lowerStr p.1 == "rqid" with
  | none => simp
  | some p0 =>
    have hp0 := List.find?_some hf
    have hlow : lowerStr p0.1 = "rqid" := beq_iff_eq.mp hp0
    have hget : hgetFirst hs p0.1 = some p0.2 := by
      unfold hgetFirst
      rw [hlow, hf]
      rfl
    simp only [Option.map_some']
    rw [hget]
    simp

/-- C7: with the request-id flag set, the check passes exactly when a
header named `Rqid` is present (case-insensitive lookup) with a value that
parses as a UUID; any hex-and-hyphens string whose hyphen-free residue has
32 hex digits is accepted (covering both the hyphenated and the plain
32-digit form), the claim's negative example is rejected, and a rule
without the flag passes trivially. -/
theorem rqid_spec :
    (∀ hs, validate_rqid false hs = true)
    ∧ (∀ hs, validate_rqid true hs = true ↔
        ∃ v, (hs.find? fun p => lowerStr p.1 == "rqid").map Prod.snd = some v
             ∧ uuidOk v = true)
    ∧ (∀ s : String, (∀ c ∈ s.data, isHexDigitCh c = true ∨ c = '-') →
        (s.data.filter fun c => c != '-').length = 32 → uuidOk s = true)
    ∧ uuidOk "not-a-uuid" = false :=
  ⟨fun _ => rfl, validate_rqid_true_iff,
   fun _ h1 h2 => uuidOk_of_hex_hyphens h1 h2, by decide⟩

/-- Witness for C7: the canonical hyphenated UUID is accepted. -/
theorem rqid_spec_witness :
    uuidOk "123e4567-e89b-12d3-a456-426614174000" = true :=
  rqid_spec.2.2.1 "123e4567-e89b-12d3-a456-426614174000" (by decide) (by decide)

/-! ## C3: field-map body validation -/

/-- The compiled form of the pattern `\d+`. -/
def digitsPlus : Regex := .cat .digit (.star .digit)

/-- C3: for a `FieldMap` body shape, the body check passes exactly when the
actual key set equals the declared field set and every declared field's
value (stringified, with null as `""`) passes its pattern under `re.match`
prefix semantics; a pattern whose evaluation raises counts as a failed
match (never a crash), and `\d+` accepts `"123abc"`. -/
theorem fieldmap_body_spec (m : List (String × Pat)) (actual : List (String × Value))
    (hne : m ≠ []) :
    (validate_body_structure (.fields m) actual = true ↔
      keySetEq (keyList m) (keyList actual) = true
      ∧ ∀ fp ∈ m, ∃ v, dlookup fp.1 actual = some v ∧ validate_field v fp.2 = true)
    ∧ (∀ v, validate_field v .bad = false)
    ∧ pyStr .vnull = ""
    ∧ validate_field (.vstr "123abc") (.ok digitsPlus) = true := by
  refine ⟨?_, fun v => rfl, rfl, by decide⟩
  have hie : m.isEmpty = false := by
    cases m with
    | nil => exact absurd rfl hne
    | cons a l => rfl
  simp only [validate_body_structure]
  rw [hie]
  simp only [Bool.false_eq_true, if_false]
  by_cases hk : keySetEq (keyList m) (keyList actual) = true
  · rw [if_pos hk]
    simp only [hk, true_and]
    rw [List.all_eq_true]
    constructor
    · intro h fp hfp
      have hfp' := h fp hfp
      cases hd : dlookup fp.1 actual with
      | none => rw [hd] at hfp'; exact absurd hfp' (by simp)
      | some v =>
        rw [hd] at hfp'
        exact ⟨v, rfl, hfp'⟩
    · intro h fp hfp
      rcases h fp hfp with ⟨v, hv, hvf⟩
      rw [hv]
      exact hvf
  · rw [if_neg hk]
    simp only [Bool.false_eq_true, false_iff]
    intro hcon
    exact hk hcon.1

/-- Witness for C3: body `(id: "42")` against field map `(id: \d+)`
passes. -/
theorem fieldmap_body_spec_witness :
    validate_body_structure (.fields [("id", Pat.ok digitsPlus)])
      [("id", Value.vstr "42")] = true :=
  ((fieldmap_body_spec [("id", Pat.ok digitsPlus)] [("id", Value.vstr "42")]
      (by simp)).1).mpr
    ⟨by decide, by
      intro fp hfp
      rw [List.mem_singleton] at hfp
      subst hfp
      exact ⟨Value.vstr "42", rfl, by decide⟩⟩

/-- Lookup after one `expected_pairs` insertion: the inserted name gains the
value at the end of its list, other names are untouched. -/
theorem addPair_dlookup (nm v n : String) :
    ∀ acc : List (String × List String),
    dlookup n (addPair nm v acc)
      = if n = nm then some ((dlookup n acc).getD [] ++ [v]) else dlookup n acc := by
  intro acc
  induction acc with
  | nil =>
    by_cases h : n = nm
    · subst h; simp [addPair, dlookup]
    · simp [addPair, dlookup, h, Ne.symm h]
  | cons p rest ih =>
    by_cases hp : p.1 = nm
    · simp only [addPair, if_pos hp]
      by_cases hn : n = nm
      · subst hn
        simp [dlookup, hp]
      · have hpn : ¬ p.1 = n := fun h => hn (by rw [← h, hp])
        simp [dlookup, hpn, hn]
    · simp only [addPair, if_neg hp]
      by_cases hpn : p.1 = n
      · have hn : ¬ n = nm := fun h => hp (by rw [hpn, h])
        simp [dlookup, hpn, hn]
      · simp [dlookup, hpn, ih]

/-- The `expected_pairs` construction succeeds on well-formed declared
headers and realizes the `declaredVals` multimap (relative to the starting
accumulator). -/
theorem buildPairs_dlookup :
    ∀ (lst : List HdrRule) (acc : List (String × List String)),
    (∀ x ∈ lst, ¬ lowerStr x.name = "" ∧ ¬ x.value = "") →
    ∃ ep, buildPairs lst acc = some ep ∧
      ∀ n, dlookup n ep
        = match dlookup n acc with
          | some vs => some (vs ++ declaredVals lst n)
          | none => if declaredVals lst n = [] then none else some (declaredVals lst n) := by
  intro lst
  induction lst with
  | nil =>
    intro acc _
    refine ⟨acc, rfl, fun n => ?_⟩
    cases h : dlookup n acc <;> simp [declaredVals]
  | cons hd tl ih =>
    intro acc hgood
    have hhd := hgood hd (List.mem_cons_self hd tl)
    have hcond : ¬ (lowerStr hd.name = "" ∨ hd.value = "") := by
      rintro (h | h)
      exacts [hhd.1 h, hhd.2 h]
    obtain ⟨ep, hep, hdl⟩ := ih (addPair (lowerStr hd.name) hd.value acc)
      (fun x hx => hgood x (List.mem_cons_of_mem _ hx))
    refine ⟨ep, ?_, ?_⟩
    · simp only [buildPairs]
      rw [if_neg hcond]
      exact hep
    · intro n
      have hdv : declaredVals (hd :: tl) n
          = if lowerStr hd.name = n then hd.value :: declaredVals tl n
            else declaredVals tl n := by
        by_cases h : lowerStr hd.name = n
        · simp [declaredVals, List.filter_cons, h]
        · simp [declaredVals, List.filter_cons, h]
      rw [hdl n, addPair_dlookup]
      by_cases hn : n = lowerStr hd.name
      · rw [if_pos hn]
        have hdv' : declaredVals (hd :: tl) n = hd.value :: declaredVals tl n := by
          rw [hdv, if_pos hn.symm]
        rw [hdv']
        cases hacc : dlookup n acc with
        | none => simp
        | some vs => simp
      · rw [if_neg hn]
        have hdv' : declaredVals (hd :: tl) n = declaredVals tl n := by
          rw [hdv, if_neg fun h => hn h.symm]
        rw [hdv']

/-- The per-key verdict of the scan loop: for a declared (lowercased) name,
the request value seen by the loop (werkzeug `get`) must be among the
declared values. -/
def gbKey (ep : List (String × List String)) (hs : List (String × String)) (n : String) : Bool :=
  match dlookup (lowerStr n) ep with
  | none => true
  | some vals =>
    match hgetFirst hs n with
    | none => false
    | some v => vals.contains v

/-- The keys the scan loop actually inspects: those with a declared
lowercased name. -/
def relKeys (ep : List (String × List String)) (ks : List String) : List String :=
  ks.filter fun n => (dlookup (lowerStr n) ep).isSome

/-- One-step unfolding of the scan loop. -/
theorem hloop_cons (ep : List (String × List String)) (hs : List (String × String))
    (n : String) (ks : List String) (found : Bool) :
    hloop ep hs (n :: ks) found
      = match dlookup (lowerStr n) ep with
        | none => hloop ep hs ks found
        | some vals =>
          match hgetFirst hs n with
          | none => false
          | some v =>
            if vals.contains v then
              if found then false else hloop ep hs ks true
            else false := rfl

/-- The scan loop succeeds exactly when every inspected key carries a
declared value and the number of inspected keys (plus one if a match was
already found) is exactly one. -/
theorem hloop_iff (ep : List (String × List String)) (hs : List (String × String)) :
    ∀ (ks : List String) (found : Bool),
    hloop ep hs ks found = true ↔
      ((relKeys ep ks).all (gbKey ep hs) = true
       ∧ (relKeys ep ks).length + found.toNat = 1) := by
  intro ks
  induction ks with
  | nil =>
    intro found
    cases found <;> simp [hloop, relKeys]
  | cons n ks ih =>
    intro found
    cases hdl : dlookup (lowerStr n) ep with
    | none =>
      have hrel : relKeys ep (n :: ks) = relKeys ep ks := by
        simp [relKeys, List.filter_cons, hdl]
      rw [hloop_cons, hdl, hrel]
      exact ih found
    | some vals =>
      have hrel : relKeys ep (n :: ks) = n :: relKeys ep ks := by
        simp [relKeys, List.filter_cons, hdl]
      rw [hrel]
      cases hv : hgetFirst hs n with
      | none =>
        have hl : hloop ep hs (n :: ks) found = false := by
          rw [hloop_cons, hdl, hv]
        have hg : gbKey ep hs n = false := by
          unfold gbKey
          rw [hdl, hv]
        rw [hl]
        simp [List.all_cons, hg]
      | some v =>
        have hstep : hloop ep hs (n :: ks) found
            = if vals.contains v = true then
                (if found = true then false else hloop ep hs ks true)
              else false := by
          rw [hloop_cons, hdl, hv]
        have hgstep : gbKey ep hs n = vals.contains v := by
          unfold gbKey
          rw [hdl, hv]
        cases hc : vals.contains v with
        | false =>
          have hl : hloop ep hs (n :: ks) found = false := by
            rw [hstep, hc]
            simp
          have hg : gbKey ep hs n = false := by rw [hgstep, hc]
          rw [hl]
          simp [List.all_cons, hg]
        | true =>
          have hg : gbKey ep hs n = true := by rw [hgstep, hc]
          cases found with
          | true =>
            have hl : hloop ep hs (n :: ks) true = false := by
              rw [hstep, hc]
              simp
            rw [hl]
            simp only [Bool.false_eq_true, false_iff, not_and, List.length_cons,
              Bool.toNat_true]
            intro _
            omega
          | false =>
            have hl : hloop ep hs (n :: ks) false = hloop ep hs ks true := by
              rw [hstep, hc]
              simp
            rw [hl, ih true]
            simp only [List.all_cons, hg, Bool.true_and, List.length_cons,
              Bool.toNat_true, Bool.toNat_false, Nat.add_zero]

/-- Filtering the key list is projecting the filtered pair list. -/
theorem filter_map_fst (pr : String → Bool) (hs : List (String × String)) :
    (hs.map Prod.fst).filter pr = (hs.filter fun p => pr p.1).map Prod.fst := by
  induction hs with
  | nil => rfl
  | cons p rest ih =>
    by_cases h : pr p.1 = true
    · simp [List.filter_cons, h, ih]
    · simp [List.filter_cons, h, ih]

/-- Filtering by a stronger predicate yields a sublist of filtering by a
weaker one. -/
theorem filter_sub_filter {α : Type} (pr q : α → Bool)
    (himp : ∀ a, pr a = true → q a = true) :
    ∀ l : List α, (l.filter pr).Sublist (l.filter q) := by
  intro l
  induction l with
  | nil => simp
  | cons a t ih =>
    by_cases hp : pr a = true
    · have hq := himp a hp
      simp only [List.filter_cons, hp, hq, if_true]
      exact ih.cons₂ a
    · rw [List.filter_cons, if_neg hp]
      by_cases hq : q a = true
      · rw [List.filter_cons, if_pos hq]
        exact ih.cons a
      · rw [List.filter_cons, if_neg hq]
        exact ih

/-- When exactly one request header has a declared name, the werkzeug `get`
for that name returns that header's own value (any earlier case-insensitive
homonym would itself be declared). -/
theorem unique_declared_get {expected : List HdrRule} {hs : List (String × String)}
    {p0 : String × String}
    (hdp : hs.filter (dvNE expected) = [p0]) :
    hgetFirst hs p0.1 = some p0.2 := by
  have hp0f : p0 ∈ hs.filter (dvNE expected) := by
    rw [hdp]; exact List.mem_cons_self p0 []
  have hp0mem : p0 ∈ hs := (List.mem_filter.mp hp0f).1
  obtain ⟨q0, hfind⟩ : ∃ q0, hs.find? (fun p => lowerStr p.1 == lowerStr p0.1) = some q0 :=
    Option.isSome_iff_exists.mp
      (List.find?_isSome.mpr ⟨p0, hp0mem, by simp⟩)
  have hq0mem := List.mem_of_find?_eq_some hfind
  have hq0p := List.find?_some hfind
  have hq0eq : lowerStr q0.1 = lowerStr p0.1 := beq_iff_eq.mp hq0p
  have hp0dv : dvNE expected p0 = true := (List.mem_filter.mp hp0f).2
  have hq0dv : dvNE expected q0 = true := by
    unfold dvNE at hp0dv ⊢
    rw [hq0eq]
    exact hp0dv
  have hq0f : q0 ∈ hs.filter (dvNE expected) := List.mem_filter.mpr ⟨hq0mem, hq0dv⟩
  have hq0p0 : q0 = p0 := by
    rw [hdp] at hq0f
    simpa using hq0f
  unfold hgetFirst
  rw [hfind, hq0p0]
  rfl

/-- A matching pair is in particular a declared-name pair. -/
theorem dvHit_dvNE (expected : List HdrRule) :
    ∀ p, dvHit expected p = true → dvNE expected p = true := by
  intro p hp
  unfold dvHit at hp
  unfold dvNE
  cases hdv : declaredVals expected (lowerStr p.1) with
  | nil => rw [hdv] at hp; simp at hp
  | cons a l => simp

/-- `all` over projected keys is `all` over the pairs. -/
theorem all_map_fst (pr : String → Bool) (hs : List (String × String)) :
    (hs.map Prod.fst).all pr = hs.all fun p => pr p.1 := by
  induction hs with
  | nil => rfl
  | cons p rest ih => simp [List.all_cons, ih]

/-- The full characterization of `validate_headers_exact` on a rule with a
non-empty, well-formed declared header list: the check passes exactly when
exactly one request header matches a declared `(name, value)` pair and
every request header with a declared name carries a declared value. -/
theorem validate_headers_exact_true_iff (expected : List HdrRule) (hs : List (String × String))
    (hne : expected ≠ [])
    (hgood : ∀ x ∈ expected, ¬ lowerStr x.name = "" ∧ ¬ x.value = "") :
    validate_headers_exact expected hs = true ↔
      ((hs.filter (dvHit expected)).length = 1
       ∧ ∀ p ∈ hs, dvNE expected p = true → dvHit expected p = true) := by
  have hie : expected.isEmpty = false := by
    cases expected with
    | nil => exact absurd rfl hne
    | cons a l => rfl
  obtain ⟨ep, hep, hdl⟩ := buildPairs_dlookup expected [] hgood
  have hdl' : ∀ n, dlookup n ep
      = if declaredVals expected n = [] then none
        else some (declaredVals expected n) := by
    intro n
    rw [hdl n]
    rfl
  have hval : validate_headers_exact expected hs = hloop ep hs (hs.map Prod.fst) false := by
    unfold validate_headers_exact
    rw [hie, hep]
    rfl
  rw [hval, hloop_iff]
  have hpredK : (fun n => (dlookup (lowerStr n) ep).isSome)
      = fun n => !(declaredVals expected (lowerStr n)).isEmpty := by
    funext n
    rw [hdl' (lowerStr n)]
    by_cases h : declaredVals expected (lowerStr n) = []
    · simp [h]
    · simp [h]
  have hrel : relKeys ep (hs.map Prod.fst) = (hs.filter (dvNE expected)).map Prod.fst := by
    unfold relKeys
    rw [hpredK, filter_map_fst]
    rfl
  rw [hrel, all_map_fst, List.length_map]
  simp only [Bool.toNat_false, Nat.add_zero]
  constructor
  · rintro ⟨hall, hlen⟩
    obtain ⟨p0, hdp⟩ := List.length_eq_one.mp hlen
    have hget := unique_declared_get hdp
    have hp0f : p0 ∈ hs.filter (dvNE expected) := by
      rw [hdp]
      exact List.mem_cons_self p0 []
    have hp0mem : p0 ∈ hs := (List.mem_filter.mp hp0f).1
    have hp0dv : dvNE expected p0 = true := (List.mem_filter.mp hp0f).2
    have hgb : gbKey ep hs p0.1 = true := by
      rw [List.all_eq_true] at hall
      exact hall p0 hp0f
    have hdvne : declaredVals expected (lowerStr p0.1) ≠ [] := by
      unfold dvNE at hp0dv
      intro h
      rw [h] at hp0dv
      simp at hp0dv
    have hhit : dvHit expected p0 = true := by
      unfold gbKey at hgb
      rw [hdl' (lowerStr p0.1), if_neg hdvne, hget] at hgb
      exact hgb
    have hnb : ∀ p ∈ hs, dvNE expected p = true → dvHit expected p = true := by
      intro p hp hdvp
      have hpf : p ∈ hs.filter (dvNE expected) := List.mem_filter.mpr ⟨hp, hdvp⟩
      rw [hdp] at hpf
      have hpp0 : p = p0 := by simpa using hpf
      rw [hpp0]
      exact hhit
    refine ⟨?_, hnb⟩
    have hsub := filter_sub_filter (dvHit expected) (dvNE expected) (dvHit_dvNE expected) hs
    have hle := hsub.length_le
    rw [hdp] at hle
    have hmem : p0 ∈ hs.filter (dvHit expected) := List.mem_filter.mpr ⟨hp0mem, hhit⟩
    have hpos : 0 < (hs.filter (dvHit expected)).length := List.length_pos_of_mem hmem
    simp only [List.length_cons, List.length_nil] at hle
    omega
  · rintro ⟨hmplen, hnb⟩
    have hcongr : hs.filter (dvNE expected) = hs.filter (dvHit expected) := by
      apply List.filter_congr
      intro p hp
      by_cases hdvp : dvNE expected p = true
      · rw [hdvp, hnb p hp hdvp]
      · have h1 : dvNE expected p = false := by
          cases h : dvNE expected p
          · rfl
          · exact absurd h hdvp
        have h2 : dvHit expected p = false := by
          cases h' : dvHit expected p
          · rfl
          · exact absurd (dvHit_dvNE expected p h') hdvp
        rw [h1, h2]
    obtain ⟨p0, hmp⟩ := List.length_eq_one.mp hmplen
    have hdp : hs.filter (dvNE expected) = [p0] := by rw [hcongr, hmp]
    have hget := unique_declared_get hdp
    have hp0fm : p0 ∈ hs.filter (dvHit expected) := by
      rw [hmp]
      exact List.mem_cons_self p0 []
    have hp0mem : p0 ∈ hs := (List.mem_filter.mp hp0fm).1
    have hhit : dvHit expected p0 = true := (List.mem_filter.mp hp0fm).2
    have hdvne : declaredVals expected (lowerStr p0.1) ≠ [] := by
      have hdv := dvHit_dvNE expected p0 hhit
      unfold dvNE at hdv
      intro h
      rw [h] at hdv
      simp at hdv
    constructor
    · rw [hdp, List.all_eq_true]
      intro x hx
      have hx0 : x = p0 := by simpa using hx
      rw [hx0]
      show gbKey ep hs p0.1 = true
      unfold gbKey
      rw [hdl' (lowerStr p0.1), if_neg hdvne, hget]
      exact hhit
    · rw [hdp]
      rfl

/-- C1 (amended): with an empty declared header list the check passes for
every request; with a non-empty declared header list *all of whose entries
have a non-empty lowercased name and a non-empty value*, the check passes
iff exactly one request header matches a declared `(name, value)` pair
(case-insensitive name, exact value) and no request header with a declared
lowercased name carries an undeclared value.  (Without the well-formedness
hypothesis the claim is false, see `headers_exact_claim_counterexample` and
C10.) -/
theorem headers_exact_spec (expected : List HdrRule) (hs : List (String × String)) :
    (expected = [] → validate_headers_exact expected hs = true)
    ∧ (expected ≠ [] →
       (∀ x ∈ expected, ¬ lowerStr x.name = "" ∧ ¬ x.value = "") →
       (validate_headers_exact expected hs = true ↔
         ((hs.filter (dvHit expected)).length = 1
          ∧ ∀ p ∈ hs, dvNE expected p = true → dvHit expected p = true))) := by
  constructor
  · rintro rfl
    rfl
  · intro hne hgood
    exact validate_headers_exact_true_iff expected hs hne hgood

/-- Witness for C1: rule declaring `x-key: a` or `x-key: b`, request with
the single header `X-Key: a`, accepted. -/
theorem headers_exact_spec_witness :
    validate_headers_exact [⟨"x-key", "a"⟩, ⟨"x-key", "b"⟩] [("X-Key", "a")] = true :=
  ((headers_exact_spec [⟨"x-key", "a"⟩, ⟨"x-key", "b"⟩] [("X-Key", "a")]).2
    (by simp) (by decide)).mpr (by decide)

end Gate
